import Mathlib

/-!
# Verification of the OpenDrop Tetris engine

A shallow embedding of the OpenDrop game engine (`Game`, `Tetris`,
`Tetromino`, `gameUtils`) together with proofs of the specified
properties.  Machine integers are modelled as `Nat`/`Int`; the
electrode grids are modelled as boolean-valued functions on integer
coordinates; array indexing `a[i]` on possibly-out-of-range indices is
modelled with `getD` (JavaScript yields `undefined`, which is falsy in
every boolean position the code reads).
-/

namespace OpenDrop

/-- 2-D integer vector, from `gameUtils.Vec`. -/
structure Vec where
  x : Int
  y : Int
deriving DecidableEq, Repr

/-- `vecAdd` from `gameUtils`. -/
def vecAdd (a b : Vec) : Vec := { x := a.x + b.x, y := a.y + b.y }

/-- A tetromino shape: a list of boolean rows (`boolean[][]`). -/
abbrev Shape := List (List Bool)

/-- Reading `shape[y][x]` as the code does inside bound-checked loops;
out-of-range reads give `false` (JavaScript `undefined` is falsy). -/
def cellAt (s : Shape) (y x : Nat) : Bool := (s.getD y []).getD x false

namespace Tetromino

/-- `Tetromino.rotate`: builds an `N×N` matrix where `N = shape.length`;
clockwise (`direction = 1`) sets `new[y][x] = old[size-1-x][y]`,
otherwise `new[y][x] = old[x][size-1-y]`. -/
def rotate (shape : Shape) (direction : Int) : Shape :=
  let size := shape.length
  (List.range size).map fun y =>
    (List.range size).map fun x =>
      if direction = 1 then cellAt shape (size - 1 - x) y
      else cellAt shape x (size - 1 - y)

end Tetromino

theorem rotate_length (s : Shape) (d : Int) :
    (Tetromino.rotate s d).length = s.length := by
  simp [Tetromino.rotate]

theorem rotate_row_length (s : Shape) (d : Int) (row : List Bool)
    (h : row ∈ Tetromino.rotate s d) : row.length = s.length := by
  simp only [Tetromino.rotate, List.mem_map] at h
  obtain ⟨y, -, rfl⟩ := h
  simp

theorem getElem_eq_cellAt (s : Shape) (y x : Nat)
    (h1 : y < s.length) (h2 : x < s[y].length) :
    s[y][x] = cellAt s y x := by
  unfold cellAt
  rw [List.getD_eq_getElem _ _ h1, List.getD_eq_getElem _ _ h2]

theorem cellAt_rotate (s : Shape) (d : Int) (y x : Nat)
    (hy : y < s.length) (hx : x < s.length) :
    cellAt (Tetromino.rotate s d) y x =
      if d = 1 then cellAt s (s.length - 1 - x) y
      else cellAt s x (s.length - 1 - y) := by
  unfold Tetromino.rotate cellAt
  simp only [List.getD_eq_getElem?_getD, List.getElem?_map,
    List.getElem?_range hy, Option.map_some', Option.getD_some]
  simp only [List.getElem?_map, List.getElem?_range hx, Option.map_some', Option.getD_some]

/-- C9: rotating a square shape clockwise and then counter-clockwise
restores it: `rotate(rotate(shape, +1), -1)` equals `shape`. -/
theorem rotate_rotate_inv (s : Shape) (hsq : ∀ row ∈ s, row.length = s.length) :
    Tetromino.rotate (Tetromino.rotate s 1) (-1) = s := by
  have hlen : (Tetromino.rotate s 1).length = s.length := rotate_length s 1
  apply List.ext_getElem
  · simp [rotate_length]
  · intro y h1 h2
    have hy : y < s.length := h2
    apply List.ext_getElem
    · have hr := rotate_row_length (Tetromino.rotate s 1) (-1)
        ((Tetromino.rotate (Tetromino.rotate s 1) (-1))[y]) (List.getElem_mem _)
      rw [hr, hlen, hsq s[y] (List.getElem_mem _)]
    · intro x h3 h4
      have hx : x < s.length := by
        rwa [hsq s[y] (List.getElem_mem _)] at h4
      rw [getElem_eq_cellAt _ _ _ h1 h3, getElem_eq_cellAt _ _ _ h2 h4]
      rw [cellAt_rotate _ _ _ _ (by rw [hlen]; exact hy) (by rw [hlen]; exact hx)]
      rw [if_neg (by decide)]
      simp only [rotate_length]
      rw [cellAt_rotate _ _ _ _ hx (by omega)]
      rw [if_pos rfl]
      congr 1
      omega

/-! ## Path finding (`Game.findPath`) -/

/-- Manhattan distance between two positions (used to state C3). -/
def manhattanDist (a b : Vec) : Nat := (b.x - a.x).natAbs + (b.y - a.y).natAbs

/-- One iteration of the `findPath` while-loop body: move one step in x
if `current.x !== end.x`, else one step in y if `current.y !== end.y`. -/
def findPathNext (start e : Vec) : Vec :=
  if start.x ≠ e.x then { x := start.x + (if start.x < e.x then 1 else -1), y := start.y }
  else if start.y ≠ e.y then { x := start.x, y := start.y + (if start.y < e.y then 1 else -1) }
  else start

/-- `Game.findPath`: walks from `start` to `e` one cell at a time,
moving in x first, then in y, pushing each new position (the start
cell is never pushed). -/
def findPath (start e : Vec) : List Vec :=
  if start = e then []
  else findPathNext start e :: findPath (findPathNext start e) e
termination_by manhattanDist start e
decreasing_by
  obtain ⟨sx, sy⟩ := start
  obtain ⟨ex, ey⟩ := e
  simp only [Vec.mk.injEq, not_and] at *
  unfold findPathNext manhattanDist
  split_ifs <;> simp_all <;> omega

theorem findPathNext_dist (a b : Vec) (h : a ≠ b) :
    manhattanDist (findPathNext a b) b + 1 = manhattanDist a b := by
  obtain ⟨ax, ay⟩ := a
  obtain ⟨bx, by'⟩ := b
  simp only [ne_eq, Vec.mk.injEq, not_and] at h
  unfold findPathNext manhattanDist
  split_ifs <;> simp_all <;> omega

theorem findPathNext_step (a b : Vec) (h : a ≠ b) :
    manhattanDist a (findPathNext a b) = 1 := by
  obtain ⟨ax, ay⟩ := a
  obtain ⟨bx, by'⟩ := b
  simp only [ne_eq, Vec.mk.injEq, not_and] at h
  unfold findPathNext manhattanDist
  split_ifs <;> simp_all

theorem findPath_eq_nil_iff (a b : Vec) : findPath a b = [] ↔ a = b := by
  rw [findPath]
  split_ifs with h <;> simp [h]

theorem findPath_length (a b : Vec) : (findPath a b).length = manhattanDist a b := by
  induction a, b using findPath.induct with
  | case1 e => simp [findPath, manhattanDist]
  | case2 a b h ih =>
    rw [findPath, if_neg h, List.length_cons, ih, findPathNext_dist a b h]

theorem findPath_chain (a b : Vec) :
    List.Chain (fun p q => manhattanDist p q = 1 ∧ manhattanDist q b < manhattanDist p b)
      a (findPath a b) := by
  induction a, b using findPath.induct with
  | case1 e => simp [findPath]
  | case2 a b h ih =>
    rw [findPath, if_neg h]
    exact List.Chain.cons
      ⟨findPathNext_step a b h, by have := findPathNext_dist a b h; omega⟩ ih

theorem findPath_mem_fixed_x (a b : Vec) (h : a.x = b.x) :
    ∀ p ∈ findPath a b, p.x = b.x := by
  induction a, b using findPath.induct with
  | case1 e => simp [findPath]
  | case2 a b hne ih =>
    rw [findPath, if_neg hne]
    intro p hp
    have hnx : (findPathNext a b).x = b.x := by
      unfold findPathNext
      rw [if_neg (by simpa using h)]
      split_ifs <;> simp [h]
    rcases List.mem_cons.1 hp with rfl | hp
    · exact hnx
    · exact ih hnx p hp

theorem findPath_horizontal_first (a b : Vec) :
    ∀ p ∈ findPath a b, p.y = a.y ∨ p.x = b.x := by
  induction a, b using findPath.induct with
  | case1 e => simp [findPath]
  | case2 a b hne ih =>
    rw [findPath, if_neg hne]
    intro p hp
    rcases List.mem_cons.1 hp with rfl | hp
    · unfold findPathNext
      split_ifs <;> simp_all
    · by_cases hx : a.x = b.x
      · exact Or.inr (findPath_mem_fixed_x _ b (by
          unfold findPathNext
          rw [if_neg (by simpa using hx)]
          split_ifs <;> simp [hx]) p hp)
      · have hn : (findPathNext a b).y = a.y := by
          unfold findPathNext
          rw [if_pos (by simpa using hx)]
        rcases ih p hp with hy | hxx
        · exact Or.inl (hn ▸ hy)
        · exact Or.inr hxx

theorem findPath_mem_dist_lt (a b : Vec) :
    ∀ p ∈ findPath a b, manhattanDist p b < manhattanDist a b := by
  induction a, b using findPath.induct with
  | case1 e => simp [findPath]
  | case2 a b hne ih =>
    rw [findPath, if_neg hne]
    intro p hp
    have hd := findPathNext_dist a b hne
    rcases List.mem_cons.1 hp with rfl | hp
    · omega
    · have := ih p hp
      omega

theorem findPath_nodup (a b : Vec) : (findPath a b).Nodup := by
  induction a, b using findPath.induct with
  | case1 e => simp [findPath]
  | case2 a b hne ih =>
    rw [findPath, if_neg hne]
    refine List.nodup_cons.2 ⟨fun hmem => ?_, ih⟩
    exact absurd (findPath_mem_dist_lt _ b _ hmem) (lt_irrefl _)

theorem findPath_start_not_mem (a b : Vec) : a ∉ findPath a b := fun hmem =>
  absurd (findPath_mem_dist_lt a b a hmem) (lt_irrefl _)

/-- C3: `findPath(a, b)` excludes the start cell, moves one cell per
step with horizontal movement exhausted before vertical movement, has
length `|a.x-b.x| + |a.y-b.y|`, strictly decreases the remaining
Manhattan distance to `b` at every step, never repeats a cell, and is
empty exactly when `a = b`. -/
theorem findPath_spec (a b : Vec) :
    (findPath a b = [] ↔ a = b)
    ∧ (findPath a b).length = ((a.x - b.x).natAbs + (a.y - b.y).natAbs)
    ∧ List.Chain (fun p q => manhattanDist p q = 1 ∧ manhattanDist q b < manhattanDist p b)
        a (findPath a b)
    ∧ (findPath a b).Nodup
    ∧ a ∉ findPath a b
    ∧ (∀ p ∈ findPath a b, p.y = a.y ∨ p.x = b.x) :=
  ⟨findPath_eq_nil_iff a b,
   by rw [findPath_length]; unfold manhattanDist; omega,
   findPath_chain a b, findPath_nodup a b, findPath_start_not_mem a b,
   findPath_horizontal_first a b⟩

/-! ## Piece catalog (`Tetromino.ts`) -/

/-- The seven tetromino kinds (`TetrominoType`). -/
inductive TetrominoType
  | HORIZONTAL
  | LEFT_CORNER
  | RIGHT_CORNER
  | SQUARE
  | STEP_UP_LEFT
  | STEP_UP_RIGHT
  | PYRAMID
deriving DecidableEq, Repr

/-- `tetrominoShapes`, translated verbatim. -/
def tetrominoShapes : TetrominoType → Shape
  | .HORIZONTAL =>
    [[false, false, false, false],
     [true, true, true, true],
     [false, false, false, false],
     [false, false, false, false]]
  | .LEFT_CORNER =>
    [[true, false, false],
     [true, true, true],
     [false, false, false]]
  | .RIGHT_CORNER =>
    [[false, false, true],
     [true, true, true],
     [false, false, false]]
  | .SQUARE =>
    [[false, true, true, false],
     [false, true, true, false],
     [false, false, false, false]]
  | .STEP_UP_LEFT =>
    [[true, true, false],
     [false, true, true],
     [false, false, false]]
  | .STEP_UP_RIGHT =>
    [[false, true, true],
     [true, true, false],
     [false, false, false]]
  | .PYRAMID =>
    [[false, true, false],
     [true, true, true],
     [false, false, false]]

/-- Witness for C9 at the pyramid (T) shape. -/
theorem rotate_rotate_inv_witness :
    (∀ row ∈ tetrominoShapes .PYRAMID, row.length = (tetrominoShapes .PYRAMID).length)
    ∧ Tetromino.rotate (Tetromino.rotate (tetrominoShapes .PYRAMID) 1) (-1)
        = tetrominoShapes .PYRAMID :=
  ⟨by decide, rotate_rotate_inv (tetrominoShapes .PYRAMID) (by decide)⟩

/-! ## Game utilities (`gameUtils.ts`) -/

/-- The four corner reservoirs. -/
inductive Reservoir
  | TL
  | BL
  | TR
  | BR
deriving DecidableEq, Repr

/-- `reverseNibble`: reverses the bit order of a 4-bit nibble. -/
def reverseNibble (nibble : Nat) : Nat :=
  ((nibble &&& 0b0001) <<< 3) ||| ((nibble &&& 0b0010) <<< 1)
    ||| ((nibble &&& 0b0100) >>> 1) ||| ((nibble &&& 0b1000) >>> 3)

/-- `dispenseSequence`: the fixed 7-step nibble waveform. -/
def dispenseSequence : List Nat := [0b1000, 0b1100, 0b0111, 0b0001, 0b1100, 0b1010, 0b1010]

/-- `dispenseDropFrame`: 0-indexed frame where the drop moves to the main grid. -/
def dispenseDropFrame : Nat := 3

/-- Squared Euclidean distance.  The source's `distance` is
`Math.sqrt` of this value; all comparisons the engine makes are
between distances of integer grid points (squared values at most a few
hundred), where the strictly monotone floating-point square root
orders values exactly as their squares, so comparing squared distances
is faithful. -/
def distanceSq (a b : Vec) : Int := (a.x - b.x) * (a.x - b.x) + (a.y - b.y) * (a.y - b.y)

/-! ## The board engine (`Game.ts`) -/

/-- OpenDrop board size: `size = {x: 16, y: 8}`. -/
def boardSize : Vec := { x := 16, y := 8 }

/-- Playable size without the two special columns:
`gameSize = {x: size.x - 2, y: size.y}`. -/
def gameSize : Vec := { x := boardSize.x - 2, y := boardSize.y }

/-- The mutable state of the `Game` base class. -/
structure GameState where
  electrodes : Int → Int → Bool
  needFilling : List Vec
  currentlyMoving : Option Vec
  availableReservoirs : List Reservoir
  specialElectrodesLeft : Nat
  specialElectrodesRight : Nat

/-- The field-initializer state of a fresh `Game`. -/
def initialGameState : GameState :=
  { electrodes := fun _ _ => false
    needFilling := []
    currentlyMoving := none
    availableReservoirs := [.TL, .BL, .TR, .BR]
    specialElectrodesLeft := 0
    specialElectrodesRight := 0 }

/-- `Game.getDispenseLocation`. -/
def getDispenseLocation (reservoir : Reservoir) : Vec :=
  match reservoir with
  | .TL => { x := 0, y := 1 }
  | .BL => { x := 0, y := gameSize.y - 2 }
  | .TR => { x := gameSize.x - 2, y := 1 }
  | .BR => { x := gameSize.x - 2, y := gameSize.y - 2 }

/-- `Game.updateReservoirState`: applies a nibble to one half of the
matching special-electrode byte.  Note the low-nibble (TL/TR) cases
mask with `0x0f` while the high-nibble (BL/BR) cases shift without
masking, exactly as the source does. -/
def updateReservoirState (reservoirId : Reservoir) (nibble : Nat) (g : GameState) : GameState :=
  match reservoirId with
  | .TL => { g with specialElectrodesLeft :=
      (g.specialElectrodesLeft &&& 0xf0) ||| (nibble &&& 0x0f) }
  | .BL => { g with specialElectrodesLeft :=
      (g.specialElectrodesLeft &&& 0x0f) ||| (nibble <<< 4) }
  | .TR => { g with specialElectrodesRight :=
      (g.specialElectrodesRight &&& 0xf0) ||| (nibble &&& 0x0f) }
  | .BR => { g with specialElectrodesRight :=
      (g.specialElectrodesRight &&& 0x0f) ||| (nibble <<< 4) }

/-- Low half of a special-electrode byte. -/
def lowNibble (b : Nat) : Nat := b &&& 0x0f

/-- High half of a special-electrode byte. -/
def highNibble (b : Nat) : Nat := b >>> 4

/-! ## Nibble/byte bit lemmas -/

theorem testBit_15 (i : Nat) : (15 : Nat).testBit i = decide (i < 4) := by
  have h : (15 : Nat) = 2 ^ 4 - 1 := rfl
  rw [h, Nat.testBit_two_pow_sub_one]

theorem testBit_240 (i : Nat) : (240 : Nat).testBit i = (decide (4 ≤ i) && decide (i < 8)) := by
  have h : (240 : Nat) = 15 <<< 4 := rfl
  rw [h, Nat.testBit_shiftLeft, testBit_15]
  by_cases h4 : 4 ≤ i
  · have : i - 4 < 4 ↔ i < 8 := by omega
    simp [h4, this]
  · simp [h4]

theorem testBit_of_le_15 (n i : Nat) (hn : n ≤ 15) (hi : 4 ≤ i) : n.testBit i = false :=
  Nat.testBit_lt_two_pow (lt_of_le_of_lt hn (by
    calc (15 : Nat) < 2 ^ 4 := by norm_num
    _ ≤ 2 ^ i := Nat.pow_le_pow_right (by norm_num) hi))

theorem lowNibble_update_low (a n : Nat) (hn : n ≤ 15) :
    lowNibble ((a &&& 240) ||| (n &&& 15)) = n := by
  unfold lowNibble
  apply Nat.eq_of_testBit_eq
  intro i
  simp only [Nat.testBit_and, Nat.testBit_or, testBit_15, testBit_240]
  by_cases hi : i < 4
  · have : ¬ 4 ≤ i := by omega
    simp [hi, this]
  · have h4 : 4 ≤ i := by omega
    simp [hi, testBit_of_le_15 n i hn h4]

theorem highNibble_update_high (a n : Nat) :
    highNibble ((a &&& 15) ||| (n <<< 4)) = n := by
  unfold highNibble
  apply Nat.eq_of_testBit_eq
  intro i
  simp only [Nat.testBit_shiftRight, Nat.testBit_or, Nat.testBit_and,
    Nat.testBit_shiftLeft, testBit_15]
  have h1 : ¬ (4 + i < 4) := by omega
  have h2 : (4 : Nat) ≤ 4 + i := by omega
  have h3 : 4 + i - 4 = i := by omega
  simp [h1, h2, h3]

theorem highNibble_update_low (a n : Nat) (ha : a ≤ 255) :
    highNibble ((a &&& 240) ||| (n &&& 15)) = highNibble a := by
  unfold highNibble
  apply Nat.eq_of_testBit_eq
  intro i
  simp only [Nat.testBit_shiftRight, Nat.testBit_or, Nat.testBit_and, testBit_15, testBit_240]
  by_cases hi : i < 4
  · have h4 : (4 : Nat) ≤ 4 + i := by omega
    have h8 : 4 + i < 8 := by omega
    have h1 : ¬ (4 + i < 4) := by omega
    simp [h4, h8, h1]
  · have h1 : ¬ (4 + i < 8) := by omega
    have h2 : a.testBit (4 + i) = false := Nat.testBit_lt_two_pow (lt_of_le_of_lt ha (by
      calc (255 : Nat) < 2 ^ 8 := by norm_num
      _ ≤ 2 ^ (4 + i) := Nat.pow_le_pow_right (by norm_num) (by omega)))
    simp [h1, h2]

theorem lowNibble_update_high (a n : Nat) :
    lowNibble ((a &&& 15) ||| (n <<< 4)) = lowNibble a := by
  unfold lowNibble
  apply Nat.eq_of_testBit_eq
  intro i
  simp only [Nat.testBit_and, Nat.testBit_or, Nat.testBit_shiftLeft, testBit_15]
  by_cases hi : i < 4
  · have h1 : ¬ (4 ≤ i) := by omega
    simp [hi, h1]
  · simp [hi]

theorem byte_update_low_le (a n : Nat) (ha : a ≤ 255) :
    (a &&& 240) ||| (n &&& 15) ≤ 255 := by
  have h1 : a &&& 240 < 2 ^ 8 := lt_of_le_of_lt Nat.and_le_left (by omega)
  have h2 : n &&& 15 < 2 ^ 8 := lt_of_le_of_lt Nat.and_le_right (by norm_num)
  have := Nat.or_lt_two_pow h1 h2
  omega

theorem byte_update_high_le (a n : Nat) (hn : n ≤ 15) :
    (a &&& 15) ||| (n <<< 4) ≤ 255 := by
  have h1 : a &&& 15 < 2 ^ 8 := lt_of_le_of_lt Nat.and_le_right (by norm_num)
  have h2 : n <<< 4 < 2 ^ 8 := by
    rw [Nat.shiftLeft_eq]
    have : n * 2 ^ 4 ≤ 15 * 2 ^ 4 := Nat.mul_le_mul_right _ hn
    omega
  have := Nat.or_lt_two_pow h1 h2
  omega

/-! ## C4 / C10: `updateReservoirState` -/

/-- C4 counterexample: for the high-nibble reservoir BL the nibble
argument is shifted without masking; with nibble 16 the stored
"byte" becomes 256, outside 0–255. -/
theorem updateReservoirState_unmasked_cex :
    (updateReservoirState .BL 16 initialGameState).specialElectrodesLeft = 256
    ∧ ¬ (updateReservoirState .BL 16 initialGameState).specialElectrodesLeft ≤ 255 := by
  constructor <;> decide

/-- C4 (amended): `updateReservoirState` masks the nibble to 4 bits
only for the low-nibble reservoirs TL/TR; for BL/BR the nibble is
shifted left unmasked, so the stored bytes remain 8-bit only when the
nibble argument is itself at most 15 (as it is at every call site). -/
theorem updateReservoirState_byte_range (r : Reservoir) (n : Nat) (g : GameState)
    (hL : g.specialElectrodesLeft ≤ 255) (hR : g.specialElectrodesRight ≤ 255) :
    ((r = .TL ∨ r = .TR) →
      (updateReservoirState r n g).specialElectrodesLeft ≤ 255
      ∧ (updateReservoirState r n g).specialElectrodesRight ≤ 255)
    ∧ (n ≤ 15 →
      (updateReservoirState r n g).specialElectrodesLeft ≤ 255
      ∧ (updateReservoirState r n g).specialElectrodesRight ≤ 255) := by
  cases r
  · exact ⟨fun _ => ⟨byte_update_low_le _ n hL, hR⟩, fun _ => ⟨byte_update_low_le _ n hL, hR⟩⟩
  · exact ⟨(by rintro (h | h) <;> cases h), fun hn => ⟨byte_update_high_le _ n hn, hR⟩⟩
  · exact ⟨fun _ => ⟨hL, byte_update_low_le _ n hR⟩, fun _ => ⟨hL, byte_update_low_le _ n hR⟩⟩
  · exact ⟨(by rintro (h | h) <;> cases h), fun hn => ⟨hL, byte_update_high_le _ n hn⟩⟩

/-- Witness for the amended C4 at reservoir BL, nibble 5. -/
theorem updateReservoirState_byte_range_witness :
    (updateReservoirState .BL 5 initialGameState).specialElectrodesLeft ≤ 255
    ∧ (updateReservoirState .BL 5 initialGameState).specialElectrodesRight ≤ 255 :=
  (updateReservoirState_byte_range .BL 5 initialGameState (by decide) (by decide)).2 (by decide)

/-- C10: for nibble values 0–15, `updateReservoirState` modifies only
the designated half-byte: the other nibble of the same special byte is
preserved, the opposite side's byte is untouched, and the electrode
matrix, fill queue, in-transit marker and availability list are all
unchanged. -/
theorem updateReservoirState_frame (r : Reservoir) (n : Nat) (g : GameState)
    (hL : g.specialElectrodesLeft ≤ 255) (hR : g.specialElectrodesRight ≤ 255) :
    (updateReservoirState r n g).electrodes = g.electrodes
    ∧ (updateReservoirState r n g).needFilling = g.needFilling
    ∧ (updateReservoirState r n g).currentlyMoving = g.currentlyMoving
    ∧ (updateReservoirState r n g).availableReservoirs = g.availableReservoirs
    ∧ (match r with
       | .TL => highNibble (updateReservoirState r n g).specialElectrodesLeft
             = highNibble g.specialElectrodesLeft
           ∧ (updateReservoirState r n g).specialElectrodesRight = g.specialElectrodesRight
       | .BL => lowNibble (updateReservoirState r n g).specialElectrodesLeft
             = lowNibble g.specialElectrodesLeft
           ∧ (updateReservoirState r n g).specialElectrodesRight = g.specialElectrodesRight
       | .TR => highNibble (updateReservoirState r n g).specialElectrodesRight
             = highNibble g.specialElectrodesRight
           ∧ (updateReservoirState r n g).specialElectrodesLeft = g.specialElectrodesLeft
       | .BR => lowNibble (updateReservoirState r n g).specialElectrodesRight
             = lowNibble g.specialElectrodesRight
           ∧ (updateReservoirState r n g).specialElectrodesLeft = g.specialElectrodesLeft) := by
  cases r
  · exact ⟨rfl, rfl, rfl, rfl, ⟨highNibble_update_low _ n hL, rfl⟩⟩
  · exact ⟨rfl, rfl, rfl, rfl, ⟨lowNibble_update_high _ n, rfl⟩⟩
  · exact ⟨rfl, rfl, rfl, rfl, ⟨highNibble_update_low _ n hR, rfl⟩⟩
  · exact ⟨rfl, rfl, rfl, rfl, ⟨lowNibble_update_high _ n, rfl⟩⟩

/-- Witness for C10 at reservoir TL, nibble 7. -/
theorem updateReservoirState_frame_witness :
    (updateReservoirState .TL 7 initialGameState).electrodes = initialGameState.electrodes
    ∧ (updateReservoirState .TL 7 initialGameState).needFilling = initialGameState.needFilling
    ∧ (updateReservoirState .TL 7 initialGameState).currentlyMoving
        = initialGameState.currentlyMoving
    ∧ (updateReservoirState .TL 7 initialGameState).availableReservoirs
        = initialGameState.availableReservoirs
    ∧ (highNibble (updateReservoirState .TL 7 initialGameState).specialElectrodesLeft
          = highNibble initialGameState.specialElectrodesLeft
        ∧ (updateReservoirState .TL 7 initialGameState).specialElectrodesRight
          = initialGameState.specialElectrodesRight) :=
  updateReservoirState_frame .TL 7 initialGameState (by decide) (by decide)

/-! ## C1: the wire frame (`Game.transmit`) -/

/-- One column byte of the wire frame: bit `y` is set when the
electrode at row `y` of column `x` is active (`colByte |= 1 << y`). -/
def colByte (g : GameState) (x : Nat) : Nat :=
  (List.range 8).foldl
    (fun (b y : Nat) => b ||| (if g.electrodes (y : Int) (x : Int) then 1 <<< y else 0)) 0

/-- `Game.transmit`: the 32-byte packet — left special byte, 14 column
bytes, right special byte, two dummy bytes, 14 control bytes.  The
source stores into a `Uint8Array(32)`, so every stored value is
truncated modulo 256. -/
def transmitPacket (g : GameState) : List Nat :=
  [g.specialElectrodesLeft % 256]
    ++ (List.range 14).map (fun x => colByte g x % 256)
    ++ [g.specialElectrodesRight % 256]
    ++ [0, 0]
    ++ List.replicate 14 0

/-- A column byte only ever sets bits 0–7, so it is already 8-bit. -/
theorem colByte_lt (g : GameState) (x : Nat) : colByte g x < 256 := by
  unfold colByte
  have hterm : ∀ y : Nat, y < 8 →
      (if g.electrodes (y : Int) (x : Int) then 1 <<< y else 0) < 2 ^ 8 := by
    intro y hy
    by_cases hc : g.electrodes (y : Int) (x : Int) = true
    · rw [if_pos hc]
      interval_cases y <;> decide
    · rw [if_neg hc]
      decide
  have gen : ∀ (l : List Nat) (acc : Nat), acc < 2 ^ 8 → (∀ y ∈ l, y < 8) →
      (l.foldl
        (fun (b y : Nat) => b ||| (if g.electrodes (y : Int) (x : Int) then 1 <<< y else 0))
        acc) < 2 ^ 8 := by
    intro l
    induction l with
    | nil => intro acc ha _; simpa using ha
    | cons y ys ih =>
      intro acc ha hall
      simp only [List.foldl_cons]
      refine ih _ (Nat.or_lt_two_pow ha (hterm y (hall y (List.mem_cons_self _ _)))) ?_
      exact fun z hz => hall z (List.mem_cons_of_mem _ hz)
  have := gen (List.range 8) 0 (by norm_num) (fun y hy => List.mem_range.1 hy)
  simpa using this

theorem testBit_ite_shift (b : Bool) (i j : Nat) :
    (if b then 1 <<< i else 0).testBit j = (b && decide (i = j)) := by
  cases b <;> simp [Nat.one_shiftLeft, Nat.testBit_two_pow]

theorem colByte_testBit (g : GameState) (x : Nat) (y : Nat) (hy : y < 8) :
    (colByte g x).testBit y = g.electrodes (y : Int) (x : Int) := by
  unfold colByte
  interval_cases y <;>
    · simp only [List.range_succ, List.foldl_append, List.foldl_cons, List.foldl_nil,
        Nat.testBit_or, testBit_ite_shift]
      simp

theorem transmitPacket_length (g : GameState) : (transmitPacket g).length = 32 := by
  simp [transmitPacket]

theorem transmitPacket_getD_col (g : GameState) (x : Nat) (hx : x < 14) :
    (transmitPacket g).getD (x + 1) 0 = colByte g x := by
  unfold transmitPacket
  rw [List.getD_eq_getElem?_getD]
  simp only [List.cons_append, List.nil_append, List.append_assoc]
  rw [List.getElem?_cons_succ, List.getElem?_append_left (by simpa using hx)]
  simp [List.getElem?_map, List.getElem?_range hx, Nat.mod_eq_of_lt (colByte_lt g x)]

theorem transmitPacket_getD_left (g : GameState) (hL : g.specialElectrodesLeft ≤ 255) :
    (transmitPacket g).getD 0 0 = g.specialElectrodesLeft := by
  unfold transmitPacket
  simp [Nat.mod_eq_of_lt (by omega : g.specialElectrodesLeft < 256)]

theorem transmitPacket_getD_right (g : GameState) (hR : g.specialElectrodesRight ≤ 255) :
    (transmitPacket g).getD 15 0 = g.specialElectrodesRight := by
  unfold transmitPacket
  rw [List.getD_eq_getElem?_getD]
  simp only [List.cons_append, List.nil_append, List.append_assoc]
  rw [List.getElem?_cons_succ, List.getElem?_append_right (by simp)]
  simp [Nat.mod_eq_of_lt (by omega : g.specialElectrodesRight < 256)]

theorem transmitPacket_getD_zero_tail (g : GameState) (i : Nat) (h16 : 16 ≤ i) (h32 : i < 32) :
    (transmitPacket g).getD i 0 = 0 := by
  unfold transmitPacket
  obtain ⟨j, rfl⟩ : ∃ j, i = 16 + j := ⟨i - 16, by omega⟩
  rw [List.getD_eq_getElem?_getD]
  simp only [List.cons_append, List.nil_append, List.append_assoc]
  rw [show 16 + j = (15 + j) + 1 by omega, List.getElem?_cons_succ,
    List.getElem?_append_right (by simp; omega)]
  simp only [List.length_map, List.length_range]
  rw [show 15 + j - 14 = j + 1 by omega, List.getElem?_cons_succ]
  have hjlt : j < 16 := by omega
  interval_cases j <;> rfl

/-- C1 counterexample: the `Uint8Array` store truncates modulo 256.
At the state reached by `updateReservoirState(BL, 16)` (the same
reachable state as the C4 counterexample) the stored left special
field is 256, but the transmitted byte 0 is 0, so byte 0 does not
always equal the stored left special-electrode field. -/
theorem transmit_truncation_cex :
    (updateReservoirState .BL 16 initialGameState).specialElectrodesLeft = 256
    ∧ (transmitPacket (updateReservoirState .BL 16 initialGameState)).getD 0 0 = 0
    ∧ (transmitPacket (updateReservoirState .BL 16 initialGameState)).getD 0 0
        ≠ (updateReservoirState .BL 16 initialGameState).specialElectrodesLeft := by
  refine ⟨by decide, by decide, by decide⟩

/-- C1 (amended): the 32-byte frame always has bytes 16–31 zero and
bytes 1–14 encoding the interior columns (bit `y` set exactly when row
`y` of that column is active; column bytes are already 8-bit); byte 0
equals the left special-electrode byte and byte 15 the right one
whenever the stored special bytes are in the 8-bit range 0–255 — the
`Uint8Array` store truncates modulo 256, and every call site keeps the
special bytes 8-bit. -/
theorem transmit_spec (g : GameState)
    (hL : g.specialElectrodesLeft ≤ 255) (hR : g.specialElectrodesRight ≤ 255) :
    (transmitPacket g).length = 32
    ∧ (transmitPacket g).getD 0 0 = g.specialElectrodesLeft
    ∧ (transmitPacket g).getD 15 0 = g.specialElectrodesRight
    ∧ (∀ x, x < 14 → ∀ y, y < 8 →
        ((transmitPacket g).getD (x + 1) 0).testBit y = g.electrodes (y : Int) (x : Int))
    ∧ (∀ i, 16 ≤ i → i < 32 → (transmitPacket g).getD i 0 = 0) :=
  ⟨transmitPacket_length g, transmitPacket_getD_left g hL, transmitPacket_getD_right g hR,
   fun x hx y hy => by rw [transmitPacket_getD_col g x hx, colByte_testBit g x y hy],
   transmitPacket_getD_zero_tail g⟩

/-- Witness for the amended C1 at the initial (all-zero) state. -/
theorem transmit_spec_witness :
    (transmitPacket initialGameState).getD 0 0 = initialGameState.specialElectrodesLeft
    ∧ (transmitPacket initialGameState).getD 15 0 = initialGameState.specialElectrodesRight :=
  ⟨(transmit_spec initialGameState (by decide) (by decide)).2.1,
   (transmit_spec initialGameState (by decide) (by decide)).2.2.1⟩

/-! ## C2: the dispense waveform (`Game.dispense`) -/

/-- Setting `this.electrodes[loc.y][loc.x] = true`. -/
def setElectrodeOn (loc : Vec) (g : GameState) : GameState :=
  { g with electrodes := fun y x => if y = loc.y ∧ x = loc.x then true else g.electrodes y x }

/-- `reservoir === Reservoir.BL || reservoir === Reservoir.BR`. -/
def isBottomSide (r : Reservoir) : Bool := r == .BL || r == .BR

/-- One iteration of the dispense-sequence loop: write the (possibly
bit-reversed) nibble, and on the drop frame also activate the
dispense-target cell. -/
def dispenseStep (r : Reservoir) (i : Nat) (g : GameState) : GameState :=
  let nibble0 := dispenseSequence.getD i 0
  let nibble := if isBottomSide r then reverseNibble nibble0 else nibble0
  let g1 := updateReservoirState r nibble g
  if i = dispenseDropFrame then setElectrodeOn (getDispenseLocation r) g1 else g1

/-- State of the engine after the initial zeroing write and the first
`k` dispense-sequence steps (each snapshot is transmitted by the
source before the next step). -/
def dispenseAfter (r : Reservoir) (g : GameState) : Nat → GameState
  | 0 => updateReservoirState r 0 g
  | k + 1 => dispenseStep r k (dispenseAfter r g k)

/-- `Game.dispense`: zero the reservoir nibble, run the 7-step
waveform, write the terminal default nibble `0b1000` (bit-reversed on
the bottom side), and return the dispense location. -/
def dispense (r : Reservoir) (g : GameState) : GameState × Vec :=
  let gEnd := dispenseAfter r g dispenseSequence.length
  let defaultNibble := if isBottomSide r then reverseNibble 0b1000 else 0b1000
  (updateReservoirState r defaultNibble gEnd, getDispenseLocation r)

/-- Observer: the nibble currently stored in the half-byte that
reservoir `r` drives. -/
def nibbleOf (r : Reservoir) (g : GameState) : Nat :=
  match r with
  | .TL => lowNibble g.specialElectrodesLeft
  | .BL => highNibble g.specialElectrodesLeft
  | .TR => lowNibble g.specialElectrodesRight
  | .BR => highNibble g.specialElectrodesRight

theorem reverseNibble_le (n : Nat) : reverseNibble n ≤ 15 := by
  unfold reverseNibble
  have h1 : (n &&& 1) <<< 3 ≤ 8 := by
    have : n &&& 1 ≤ 1 := Nat.and_le_right
    rw [Nat.shiftLeft_eq]
    omega
  have h2 : (n &&& 2) <<< 1 ≤ 4 := by
    have : n &&& 2 ≤ 2 := Nat.and_le_right
    rw [Nat.shiftLeft_eq]
    omega
  have h3 : (n &&& 4) >>> 1 ≤ 2 := by
    have : n &&& 4 ≤ 4 := Nat.and_le_right
    rw [Nat.shiftRight_eq_div_pow]
    omega
  have h4 : (n &&& 8) >>> 3 ≤ 1 := by
    have : n &&& 8 ≤ 8 := Nat.and_le_right
    rw [Nat.shiftRight_eq_div_pow]
    omega
  have o1 := Nat.or_lt_two_pow (n := 4) (by omega : (n &&& 1) <<< 3 < 2 ^ 4)
    (by omega : (n &&& 2) <<< 1 < 2 ^ 4)
  have o2 := Nat.or_lt_two_pow (n := 4) o1 (by omega : (n &&& 4) >>> 1 < 2 ^ 4)
  have o3 := Nat.or_lt_two_pow (n := 4) o2 (by omega : (n &&& 8) >>> 3 < 2 ^ 4)
  omega

theorem dispenseSequence_getD_le (i : Nat) : dispenseSequence.getD i 0 ≤ 15 := by
  rcases i with _ | _ | _ | _ | _ | _ | _ | i <;> simp [dispenseSequence]

theorem electrodes_updateReservoirState (r : Reservoir) (n : Nat) (g : GameState) :
    (updateReservoirState r n g).electrodes = g.electrodes := by
  cases r <;> rfl

theorem nibbleOf_setElectrodeOn (r : Reservoir) (loc : Vec) (g : GameState) :
    nibbleOf r (setElectrodeOn loc g) = nibbleOf r g := by
  cases r <;> rfl

theorem nibbleOf_updateReservoirState (r : Reservoir) (n : Nat) (g : GameState) (hn : n ≤ 15) :
    nibbleOf r (updateReservoirState r n g) = n := by
  cases r
  · exact lowNibble_update_low _ n hn
  · exact highNibble_update_high _ n
  · exact lowNibble_update_low _ n hn
  · exact highNibble_update_high _ n

theorem nibbleOf_dispenseStep (r : Reservoir) (i : Nat) (g : GameState) :
    nibbleOf r (dispenseStep r i g)
      = (if isBottomSide r then reverseNibble (dispenseSequence.getD i 0)
         else dispenseSequence.getD i 0) := by
  simp only [dispenseStep]
  set n := (if isBottomSide r then reverseNibble (dispenseSequence.getD i 0)
      else dispenseSequence.getD i 0) with hdef
  have hn : n ≤ 15 := by
    rw [hdef]
    cases hb : isBottomSide r
    · simpa [hb] using dispenseSequence_getD_le i
    · simpa [hb] using reverseNibble_le (dispenseSequence.getD i 0)
  by_cases h : i = dispenseDropFrame
  · rw [if_pos h, nibbleOf_setElectrodeOn]
    exact nibbleOf_updateReservoirState r n g hn
  · rw [if_neg h]
    exact nibbleOf_updateReservoirState r n g hn

/-- C2: `dispense` first forces the reservoir nibble to `0000`, then
writes the 7-step sequence `1000, 1100, 0111, 0001, 1100, 1010, 1010`
in order (bit-reversed for the bottom reservoirs BL/BR), activates the
fixed dispense-target cell exactly at step index 3, finally writes the
terminal default nibble `1000` (bit-reversed on the bottom side), and
returns the dispense-target cell. -/
theorem dispense_spec (r : Reservoir) (g : GameState) :
    nibbleOf r (dispenseAfter r g 0) = 0
    ∧ (∀ i, i < 7 →
        nibbleOf r (dispenseAfter r g (i + 1))
          = (if isBottomSide r then reverseNibble (dispenseSequence.getD i 0)
             else dispenseSequence.getD i 0))
    ∧ nibbleOf r (dispense r g).1
        = (if isBottomSide r then reverseNibble 0b1000 else 0b1000)
    ∧ (∀ i, i ≤ dispenseDropFrame → (dispenseAfter r g i).electrodes = g.electrodes)
    ∧ (dispenseAfter r g (dispenseDropFrame + 1)).electrodes
        (getDispenseLocation r).y (getDispenseLocation r).x = true
    ∧ (dispense r g).2 = getDispenseLocation r := by
  refine ⟨nibbleOf_updateReservoirState r 0 g (by omega), ?_, ?_, ?_, ?_, rfl⟩
  · intro i hi
    exact nibbleOf_dispenseStep r i (dispenseAfter r g i)
  · have hn : (if isBottomSide r then reverseNibble 0b1000 else 0b1000) ≤ 15 := by
      cases isBottomSide r
      · simp
      · simpa using reverseNibble_le 0b1000
    exact nibbleOf_updateReservoirState r _ _ hn
  · intro i hi
    unfold dispenseDropFrame at hi
    interval_cases i <;>
      simp [dispenseAfter, dispenseStep, dispenseDropFrame, electrodes_updateReservoirState]
  · show (dispenseStep r dispenseDropFrame (dispenseAfter r g dispenseDropFrame)).electrodes
      (getDispenseLocation r).y (getDispenseLocation r).x = true
    unfold dispenseStep
    rw [if_pos rfl]
    simp [setElectrodeOn]

/-! ## C7: reservoir selection (`Game.fillTick`) -/

/-- Setting `this.electrodes[loc.y][loc.x] = false`. -/
def setElectrodeOff (loc : Vec) (g : GameState) : GameState :=
  { g with electrodes := fun y x => if y = loc.y ∧ x = loc.x then false else g.electrodes y x }

/-- Squared distance from the fill target to a reservoir's dispense
location (the source compares `Math.sqrt` of these; square root is
strictly monotone, so `<`-comparisons agree). -/
def resDistSq (t : Vec) (r : Reservoir) : Int := distanceSq t (getDispenseLocation r)

/-- The selection loop of `fillTick`: starting from the current best
reservoir, replace it whenever a strictly smaller distance is found
(`dist < closestDistance`), so earlier entries win ties. -/
def selectFrom (t : Vec) (best : Reservoir) : List Reservoir → Reservoir
  | [] => best
  | r :: rs => if resDistSq t r < resDistSq t best then selectFrom t r rs else selectFrom t best rs

/-- The full selection: `closestDistance` starts at `Infinity`, so the
first reservoir of the availability list always becomes the first
best candidate; an empty list yields no reservoir. -/
def closestReservoir (t : Vec) : List Reservoir → Option Reservoir
  | [] => none
  | r :: rs => some (selectFrom t r rs)

/-- `Game.fillTick`. -/
def fillTick (g : GameState) : GameState :=
  match g.needFilling with
  | [] => g
  | electrodeToFill :: restQueue =>
    match g.currentlyMoving with
    | none =>
      match closestReservoir electrodeToFill g.availableReservoirs with
      | none => g
      | some r =>
        let p := dispense r g
        { p.1 with currentlyMoving := some p.2 }
    | some cur =>
      match findPath cur electrodeToFill with
      | [] => g
      | nextStep :: _ =>
        let g1 := setElectrodeOff cur (setElectrodeOn nextStep g)
        if nextStep = electrodeToFill then
          { g1 with needFilling := restQueue, currentlyMoving := none }
        else
          { g1 with currentlyMoving := some nextStep }

theorem selectFrom_le (t : Vec) (b : Reservoir) (rs : List Reservoir) :
    resDistSq t (selectFrom t b rs) ≤ resDistSq t b := by
  induction rs generalizing b with
  | nil => exact le_refl _
  | cons r rs ih =>
    rw [selectFrom]
    split_ifs with h
    · exact le_trans (ih r) (le_of_lt h)
    · exact ih b

theorem selectFrom_spec (t : Vec) (b : Reservoir) (rs : List Reservoir) :
    ∃ l1 l2, b :: rs = l1 ++ selectFrom t b rs :: l2
    ∧ (∀ r' ∈ l1, resDistSq t (selectFrom t b rs) < resDistSq t r')
    ∧ (∀ r' ∈ l2, resDistSq t (selectFrom t b rs) ≤ resDistSq t r') := by
  induction rs generalizing b with
  | nil => exact ⟨[], [], rfl, by simp, by simp⟩
  | cons r rs ih =>
    rw [selectFrom]
    split_ifs with h
    · obtain ⟨l1, l2, heq, h1, h2⟩ := ih r
      refine ⟨b :: l1, l2, by rw [heq, List.cons_append], ?_, h2⟩
      intro r' hr'
      rcases List.mem_cons.1 hr' with rfl | hr'
      · exact lt_of_le_of_lt (selectFrom_le t r rs) h
      · exact h1 r' hr'
    · obtain ⟨l1, l2, heq, h1, h2⟩ := ih b
      cases l1 with
      | nil =>
        simp only [List.nil_append] at heq
        have hb : b = selectFrom t b rs := by injection heq
        have hrs : rs = l2 := by injection heq
        refine ⟨[], r :: rs, by rw [List.nil_append, ← hb], by simp, ?_⟩
        intro r' hr'
        rcases List.mem_cons.1 hr' with rfl | hr'
        · rw [← hb]
          omega
        · exact h2 r' (hrs ▸ hr')
      | cons c l1' =>
        obtain ⟨rfl, htail⟩ : b = c ∧ rs = l1' ++ selectFrom t b rs :: l2 := by
          constructor <;> injection heq
        refine ⟨b :: r :: l1', l2, ?_, ?_, h2⟩
        · conv_lhs => rw [htail]
          simp
        have hb : resDistSq t (selectFrom t b rs) < resDistSq t b :=
          h1 b (List.mem_cons_self _ _)
        intro r' hr'
        rcases List.mem_cons.1 hr' with rfl | hr'
        · exact hb
        · rcases List.mem_cons.1 hr' with rfl | hr'
          · omega
          · exact h1 r' (List.mem_cons_of_mem _ hr')

/-- C7: when the fill-tick runs with a non-empty fill queue and no
droplet in transit, an empty availability list leaves the state
unchanged; otherwise the selected reservoir is a first minimizer of
the (squared) straight-line distance from its dispense-target cell to
the queue head — every earlier reservoir is strictly farther, every
later one at least as far — and the dispensed drop at its dispense
location becomes the in-transit droplet. -/
theorem fillTick_selection (g : GameState) (t : Vec) (rest : List Vec)
    (hq : g.needFilling = t :: rest) (hm : g.currentlyMoving = none) :
    (g.availableReservoirs = [] → fillTick g = g)
    ∧ (∀ r, closestReservoir t g.availableReservoirs = some r →
        (fillTick g).currentlyMoving = some (getDispenseLocation r)
        ∧ ∃ l1 l2, g.availableReservoirs = l1 ++ r :: l2
          ∧ (∀ r' ∈ l1, resDistSq t r < resDistSq t r')
          ∧ (∀ r' ∈ l2, resDistSq t r ≤ resDistSq t r')) := by
  constructor
  · intro hav
    simp only [fillTick, hq, hm, hav, closestReservoir]
  · intro r hr
    constructor
    · simp only [fillTick, hq, hm, hr]
      rfl
    · cases hav : g.availableReservoirs with
      | nil => rw [hav] at hr; simp [closestReservoir] at hr
      | cons r0 rs0 =>
        rw [hav] at hr
        simp only [closestReservoir, Option.some.injEq] at hr
        subst hr
        exact selectFrom_spec t r0 rs0

/-! ## The Tetris game (`Tetris.ts`) -/

/-- Movement directions. -/
inductive Dir
  | LEFT
  | RIGHT
  | DOWN
deriving DecidableEq, Repr

/-- `Directions`: the movement vectors. -/
def Directions : Dir → Vec
  | .LEFT => { x := -1, y := 0 }
  | .RIGHT => { x := 1, y := 0 }
  | .DOWN => { x := 0, y := 1 }

/-- The four rotation states. -/
inductive RotState
  | notRotating
  | starting
  | coalesce
  | ending
deriving DecidableEq, Repr

/-- `tetroSpawnPosition = {x: Math.ceil(gameSize.y / 2 - 2), y: 1}`,
i.e. `{x: 2, y: 1}` for the 8-column playable grid. -/
def tetroSpawnPosition : Vec := { x := 2, y := 1 }

/-- `topLevel = 3`: the game-over row of `currentBlocks`. -/
def topLevel : Int := 3

/-- The mutable state of the `Tetris` subclass that `tick` touches.
`currentBlocks` is the 14-row × 8-column static block grid, indexed as
the source does: first index `targetY` (bounded by `gameSize.x = 14`),
second index `targetX` (bounded by `gameSize.y = 8`). -/
structure TetrisState where
  currentBlocks : Int → Int → Bool
  pos : Vec
  shape : Shape
  newShape : Shape
  rotationState : RotState
  aboutRotate : Bool
  moving : Dir
  finished : Bool
  needFilling : List Vec

/-- `Tetris.isValidMove`: every occupied cell must satisfy
`0 ≤ targetX < gameSize.y`, `0 ≤ targetY < gameSize.x` and not collide
with `currentBlocks`. -/
def isValidMove (blocks : Int → Int → Bool) (pos : Vec) (shape : Shape) : Bool :=
  (List.range shape.length).all fun y =>
    (List.range (shape.getD y []).length).all fun x =>
      !(cellAt shape y x) ||
        !(decide (pos.x + x < 0) || decide (gameSize.y ≤ pos.x + x)
          || decide (pos.y + y < 0) || decide (gameSize.x ≤ pos.y + y)
          || blocks (pos.y + y) (pos.x + x))

/-- `Tetris.hasLanded`: some occupied cell has the cell directly below
out of the vertical bound (`belowY >= gameSize.x`) or occupied. -/
def hasLanded (blocks : Int → Int → Bool) (pos : Vec) (shape : Shape) : Bool :=
  (List.range shape.length).any fun y =>
    (List.range (shape.getD y []).length).any fun x =>
      cellAt shape y x &&
        (decide (gameSize.x ≤ pos.y + y + 1) || blocks (pos.y + y + 1) (pos.x + x))

/-- `Tetris.move`: move if valid, then reset the direction to DOWN. -/
def moveStep (s : TetrisState) : TetrisState :=
  let newPos := vecAdd s.pos (Directions s.moving)
  let s1 := if isValidMove s.currentBlocks newPos s.shape then { s with pos := newPos } else s
  { s1 with moving := .DOWN }

/-- `Tetris.testRotations`: compute the rotated shape; if valid at the
current position, store it and enter `starting`. -/
def testRotations (dir : Int) (s : TetrisState) : TetrisState :=
  let ns := Tetromino.rotate s.shape dir
  if isValidMove s.currentBlocks s.pos ns then
    { s with newShape := ns, rotationState := .starting }
  else s

/-- `Tetris.applyRotation`. -/
def applyRotation (s : TetrisState) : TetrisState :=
  match s.rotationState with
  | .notRotating => s
  | .starting => { s with rotationState := .coalesce }
  | .coalesce => { s with shape := s.newShape, rotationState := .ending }
  | .ending => { s with rotationState := .notRotating }

/-- `Tetris.resetRotationState`. -/
def resetRotationState (s : TetrisState) : TetrisState :=
  { s with rotationState := .notRotating }

/-- `Tetris.finalizeTetromino` as a grid transformer: every occupied
shape cell is merged into the static block grid. -/
def mergedBlocks (blocks : Int → Int → Bool) (pos : Vec) (shape : Shape) :
    Int → Int → Bool :=
  fun ty tx => blocks ty tx ||
    ((List.range shape.length).any fun y =>
      (List.range (shape.getD y []).length).any fun x =>
        cellAt shape y x && decide (pos.y + y = ty) && decide (pos.x + x = tx))

/-- `Tetris.finalizeTetromino`. -/
def finalizeTetromino (s : TetrisState) : TetrisState :=
  { s with currentBlocks := mergedBlocks s.currentBlocks s.pos s.shape }

/-- `this.currentBlocks[this.topLevel].some((cell) => cell)`: the
top-level row has `gameSize.y = 8` entries. -/
def topRowOccupied (blocks : Int → Int → Bool) : Bool :=
  (List.range 8).any fun x => blocks topLevel x

/-- `Tetris.tetrisCoordToGameCoord`. -/
def tetrisCoordToGameCoord (coord : Vec) : Vec :=
  { x := coord.y, y := gameSize.y - 1 - coord.x }

/-- The `shapeInWorldCoords` computation of `primeDroppingTetro`: map
occupied cells to game coordinates, drop empty rows, flatten, drop the
null entries. -/
def shapeInWorldCoords (pos : Vec) (shape : Shape) : List Vec :=
  ((shape.enum.map fun yrow =>
      yrow.2.enum.map fun xcell =>
        if xcell.2 then
          some (tetrisCoordToGameCoord { x := pos.x + xcell.1, y := pos.y + yrow.1 })
        else none)
    |>.filter (fun row => row.any (·.isSome))
    |>.flatten
    |>.filterMap id)

/-- `Tetris.primeDroppingTetro`: push the piece's world coordinates
onto the fill queue. -/
def primeDroppingTetro (s : TetrisState) : TetrisState :=
  { s with needFilling := s.needFilling ++ shapeInWorldCoords s.pos s.shape }

/-- `Tetromino.randomTetromino(pos)` with the random choice made an
explicit parameter: a fresh piece of kind `t` at the spawn position. -/
def spawnTetromino (t : TetrominoType) (s : TetrisState) : TetrisState :=
  { s with shape := tetrominoShapes t, pos := tetroSpawnPosition }

/-- The pre-landing phase of `Tetris.tick`: attempt a requested
rotation, then either move or advance the rotation state machine. -/
def tickCore (s : TetrisState) : TetrisState :=
  let s1 := if s.aboutRotate then { (testRotations 1 s) with aboutRotate := false } else s
  if s1.rotationState = RotState.notRotating then moveStep s1 else applyRotation s1

/-- The landing phase of `Tetris.tick`: reset rotation, merge the
piece, detect game over, otherwise spawn and prime a new piece. -/
def landedPhase (spawn : TetrominoType) (s : TetrisState) : TetrisState :=
  let s1 := finalizeTetromino (resetRotationState s)
  if topRowOccupied s1.currentBlocks then { s1 with finished := true }
  else primeDroppingTetro (spawnTetromino spawn s1)

/-- `Tetris.tick`, with the random respawn kind as parameter. -/
def tick (spawn : TetrominoType) (s : TetrisState) : TetrisState :=
  if s.finished then s
  else
    let s1 := tickCore s
    if hasLanded s1.currentBlocks s1.pos s1.shape then landedPhase spawn s1
    else s1

/-- `Tetris.setMovement`. -/
def setMovement (d : Dir) (s : TetrisState) : TetrisState :=
  if s.finished then s else { s with moving := d }

/-- The state right after `Tetris.init` (plus construction) with first
piece kind `t`: cleared grids, flags reset, first piece primed. -/
def initTetrisState (t : TetrominoType) : TetrisState :=
  primeDroppingTetro
    { currentBlocks := fun _ _ => false
      pos := tetroSpawnPosition
      shape := tetrominoShapes t
      newShape := []
      rotationState := .notRotating
      aboutRotate := false
      moving := .DOWN
      finished := false
      needFilling := [] }

/-! ## C6: landing, merging, game over -/

theorem moveStep_finished (s : TetrisState) : (moveStep s).finished = s.finished := by
  simp only [moveStep]
  split_ifs <;> rfl

theorem moveStep_currentBlocks (s : TetrisState) :
    (moveStep s).currentBlocks = s.currentBlocks := by
  simp only [moveStep]
  split_ifs <;> rfl

theorem applyRotation_finished (s : TetrisState) :
    (applyRotation s).finished = s.finished := by
  unfold applyRotation
  cases s.rotationState <;> rfl

theorem applyRotation_currentBlocks (s : TetrisState) :
    (applyRotation s).currentBlocks = s.currentBlocks := by
  unfold applyRotation
  cases s.rotationState <;> rfl

theorem testRotations_finished (d : Int) (s : TetrisState) :
    (testRotations d s).finished = s.finished := by
  simp only [testRotations]
  split_ifs <;> rfl

theorem testRotations_currentBlocks (d : Int) (s : TetrisState) :
    (testRotations d s).currentBlocks = s.currentBlocks := by
  simp only [testRotations]
  split_ifs <;> rfl

theorem tickCore_finished (s : TetrisState) : (tickCore s).finished = s.finished := by
  simp only [tickCore]
  split_ifs <;>
    simp [moveStep_finished, applyRotation_finished, testRotations_finished]

theorem tickCore_currentBlocks (s : TetrisState) :
    (tickCore s).currentBlocks = s.currentBlocks := by
  simp only [tickCore]
  split_ifs <;>
    simp [moveStep_currentBlocks, applyRotation_currentBlocks, testRotations_currentBlocks]

theorem hasLanded_iff (blocks : Int → Int → Bool) (pos : Vec) (shape : Shape) :
    hasLanded blocks pos shape = true ↔
      ∃ y x, y < shape.length ∧ x < (shape.getD y []).length ∧ cellAt shape y x = true
        ∧ (gameSize.x ≤ pos.y + y + 1 ∨ blocks (pos.y + y + 1) (pos.x + x) = true) := by
  unfold hasLanded
  simp only [List.any_eq_true, List.mem_range, Bool.and_eq_true, Bool.or_eq_true,
    decide_eq_true_eq]
  constructor
  · rintro ⟨y, hy, x, hx, hc, hbelow⟩
    exact ⟨y, x, hy, hx, hc, hbelow⟩
  · rintro ⟨y, x, hy, hx, hc, hbelow⟩
    exact ⟨y, hy, x, hx, hc, hbelow⟩

theorem tick_landing (spawn : TetrominoType) (s : TetrisState)
    (hf : s.finished = false)
    (hl : hasLanded (tickCore s).currentBlocks (tickCore s).pos (tickCore s).shape = true) :
    (tick spawn s).currentBlocks
      = mergedBlocks (tickCore s).currentBlocks (tickCore s).pos (tickCore s).shape
    ∧ (tick spawn s).finished
      = topRowOccupied
          (mergedBlocks (tickCore s).currentBlocks (tickCore s).pos (tickCore s).shape) := by
  have h1 : tick spawn s = landedPhase spawn (tickCore s) := by
    simp [tick, hf, hl]
  rw [h1]
  simp only [landedPhase, finalizeTetromino, resetRotationState]
  by_cases htop : topRowOccupied
      (mergedBlocks (tickCore s).currentBlocks (tickCore s).pos (tickCore s).shape) = true
  · simp [htop]
  · simp only [Bool.not_eq_true] at htop
    simp [htop, primeDroppingTetro, spawnTetromino, tickCore_finished, hf]

theorem tick_frozen (spawn : TetrominoType) (s : TetrisState) (hf : s.finished = true) :
    tick spawn s = s := by
  simp [tick, hf]

/-- C6: a piece has landed exactly when some occupied cell has the
cell below out of the vertical bound or occupied in the static grid;
on landing the piece is merged into the static grid and the finished
flag becomes exactly the occupancy of the fixed top-level row; once
finished, every subsequent tick leaves the state unchanged. -/
theorem landing_spec :
    (∀ (blocks : Int → Int → Bool) (pos : Vec) (shape : Shape),
        hasLanded blocks pos shape = true ↔
          ∃ y x, y < shape.length ∧ x < (shape.getD y []).length ∧ cellAt shape y x = true
            ∧ (gameSize.x ≤ pos.y + y + 1 ∨ blocks (pos.y + y + 1) (pos.x + x) = true))
    ∧ (∀ (spawn : TetrominoType) (s : TetrisState),
        s.finished = false →
        hasLanded (tickCore s).currentBlocks (tickCore s).pos (tickCore s).shape = true →
        (tick spawn s).currentBlocks
          = mergedBlocks (tickCore s).currentBlocks (tickCore s).pos (tickCore s).shape
        ∧ (tick spawn s).finished
          = topRowOccupied
              (mergedBlocks (tickCore s).currentBlocks (tickCore s).pos (tickCore s).shape))
    ∧ (∀ (spawn : TetrominoType) (s : TetrisState),
        s.finished = true → tick spawn s = s) :=
  ⟨hasLanded_iff, tick_landing, tick_frozen⟩

/-- Witness for C6: the freeze clause applied at a concrete finished
state, and the `hasLanded` characterization at a concrete landed
piece. -/
theorem landing_spec_witness :
    tick .PYRAMID
      { currentBlocks := fun _ _ => false, pos := tetroSpawnPosition,
        shape := tetrominoShapes .PYRAMID, newShape := [], rotationState := .notRotating,
        aboutRotate := false, moving := .DOWN, finished := true, needFilling := [] }
    = { currentBlocks := fun _ _ => false, pos := tetroSpawnPosition,
        shape := tetrominoShapes .PYRAMID, newShape := [], rotationState := .notRotating,
        aboutRotate := false, moving := .DOWN, finished := true, needFilling := [] } :=
  landing_spec.2.2 .PYRAMID _ rfl

/-! ## C5: the rotation protocol -/

theorem moveStep_shape (s : TetrisState) : (moveStep s).shape = s.shape := by
  simp only [moveStep]
  split_ifs <;> rfl

theorem moveStep_rotationState (s : TetrisState) :
    (moveStep s).rotationState = s.rotationState := by
  simp only [moveStep]
  split_ifs <;> rfl

/-- `tick` without landing is just the core phase. -/
theorem tick_nonlanded (spawn : TetrominoType) (s : TetrisState)
    (hf : s.finished = false)
    (hl : hasLanded (tickCore s).currentBlocks (tickCore s).pos (tickCore s).shape = false) :
    tick spawn s = tickCore s := by
  simp [tick, hf, hl]

/-- The request tick of a valid rotation: the state passes through
`starting` and ends the very same tick in `coalesce`. -/
theorem tickCore_rot_request (s : TetrisState)
    (hrot : s.aboutRotate = true)
    (hvalid : isValidMove s.currentBlocks s.pos (Tetromino.rotate s.shape 1) = true) :
    tickCore s = { s with newShape := Tetromino.rotate s.shape 1,
                          rotationState := RotState.coalesce, aboutRotate := false } := by
  simp [tickCore, testRotations, hrot, hvalid, applyRotation]

theorem tickCore_coalesce (s : TetrisState)
    (hrot : s.aboutRotate = false) (hstate : s.rotationState = RotState.coalesce) :
    tickCore s = { s with shape := s.newShape, rotationState := RotState.ending } := by
  simp [tickCore, hrot, hstate, applyRotation]

theorem tickCore_ending (s : TetrisState)
    (hrot : s.aboutRotate = false) (hstate : s.rotationState = RotState.ending) :
    tickCore s = { s with rotationState := RotState.notRotating } := by
  simp [tickCore, hrot, hstate, applyRotation]

theorem tickCore_invalid_rot (s : TetrisState)
    (hrot : s.aboutRotate = true) (hstate : s.rotationState = RotState.notRotating)
    (hvalid : isValidMove s.currentBlocks s.pos (Tetromino.rotate s.shape 1) = false) :
    tickCore s = moveStep { s with aboutRotate := false } := by
  simp [tickCore, testRotations, hrot, hvalid, hstate]

/-- C5 (amended): a valid rotation request completes in exactly 3
ticks during which the piece does not move, but the request tick
itself passes through `starting` directly into `coalesce`, and the new
shape is already swapped in on the second tick (`coalesce → ending`);
the third tick returns to `not-rotating`.  An invalid rotation request
is silently dropped, leaving shape and rotation state unchanged. -/
theorem rotation_protocol :
    (∀ (t1 t2 t3 : TetrominoType) (s : TetrisState),
      s.finished = false → s.aboutRotate = true →
      s.rotationState = RotState.notRotating →
      isValidMove s.currentBlocks s.pos (Tetromino.rotate s.shape 1) = true →
      hasLanded s.currentBlocks s.pos s.shape = false →
      hasLanded s.currentBlocks s.pos (Tetromino.rotate s.shape 1) = false →
      ((tick t1 s).rotationState = RotState.coalesce
        ∧ (tick t1 s).shape = s.shape ∧ (tick t1 s).pos = s.pos
        ∧ (tick t2 (tick t1 s)).rotationState = RotState.ending
        ∧ (tick t2 (tick t1 s)).shape = Tetromino.rotate s.shape 1
        ∧ (tick t2 (tick t1 s)).pos = s.pos
        ∧ (tick t3 (tick t2 (tick t1 s))).rotationState = RotState.notRotating
        ∧ (tick t3 (tick t2 (tick t1 s))).shape = Tetromino.rotate s.shape 1
        ∧ (tick t3 (tick t2 (tick t1 s))).pos = s.pos))
    ∧ (∀ (t : TetrominoType) (s : TetrisState),
      s.finished = false → s.aboutRotate = true →
      s.rotationState = RotState.notRotating →
      isValidMove s.currentBlocks s.pos (Tetromino.rotate s.shape 1) = false →
      hasLanded (tickCore s).currentBlocks (tickCore s).pos (tickCore s).shape = false →
      (tick t s).shape = s.shape ∧ (tick t s).rotationState = RotState.notRotating) := by
  constructor
  · intro t1 t2 t3 s hf hrot hstate hvalid hl1 hl2
    have c1 : tickCore s = { s with newShape := Tetromino.rotate s.shape 1,
                                    rotationState := RotState.coalesce,
                                    aboutRotate := false } :=
      tickCore_rot_request s hrot hvalid
    have e1 : tick t1 s = { s with newShape := Tetromino.rotate s.shape 1,
                                   rotationState := RotState.coalesce,
                                   aboutRotate := false } := by
      rw [tick_nonlanded t1 s hf (by rw [c1]; exact hl1), c1]
    have c2 : tickCore (tick t1 s) = { s with newShape := Tetromino.rotate s.shape 1,
                                              shape := Tetromino.rotate s.shape 1,
                                              rotationState := RotState.ending,
                                              aboutRotate := false } := by
      rw [e1, tickCore_coalesce _ rfl rfl]
    have e2 : tick t2 (tick t1 s) = { s with newShape := Tetromino.rotate s.shape 1,
                                             shape := Tetromino.rotate s.shape 1,
                                             rotationState := RotState.ending,
                                             aboutRotate := false } := by
      rw [tick_nonlanded t2 (tick t1 s) (by rw [e1]; exact hf) (by rw [c2]; exact hl2), c2]
    have c3 : tickCore (tick t2 (tick t1 s)) = { s with
                                                 newShape := Tetromino.rotate s.shape 1,
                                                 shape := Tetromino.rotate s.shape 1,
                                                 rotationState := RotState.notRotating,
                                                 aboutRotate := false } := by
      rw [e2, tickCore_ending _ rfl rfl]
    have e3 : tick t3 (tick t2 (tick t1 s)) = { s with
                                                newShape := Tetromino.rotate s.shape 1,
                                                shape := Tetromino.rotate s.shape 1,
                                                rotationState := RotState.notRotating,
                                                aboutRotate := false } := by
      rw [tick_nonlanded t3 _ (by rw [e2]; exact hf) (by rw [c3]; exact hl2), c3]
    rw [e3, e2, e1]
    exact ⟨rfl, rfl, rfl, rfl, rfl, rfl, rfl, rfl, rfl⟩
  · intro t s hf hrot hstate hvalid hnoland
    have c1 : tickCore s = moveStep { s with aboutRotate := false } :=
      tickCore_invalid_rot s hrot hstate hvalid
    have e1 : tick t s = moveStep { s with aboutRotate := false } := by
      rw [tick_nonlanded t s hf hnoland, c1]
    rw [e1, moveStep_shape, moveStep_rotationState]
    exact ⟨rfl, hstate⟩

/-- Concrete rotate-request state used by the C5 counterexample and
witness: pyramid piece at the spawn position on an empty board, with a
rotation requested. -/
def rotRequestState : TetrisState :=
  { currentBlocks := fun _ _ => false
    pos := { x := 2, y := 1 }
    shape := tetrominoShapes .PYRAMID
    newShape := []
    rotationState := .notRotating
    aboutRotate := true
    moving := .DOWN
    finished := false
    needFilling := [] }

/-- C5 counterexample: after the request tick the rotation state is
already `coalesce` (not `starting`, so the request tick makes two
transitions), and the visible shape has already changed after the
second tick, not the third. -/
theorem rotation_timing_cex :
    (tick .PYRAMID rotRequestState).rotationState = RotState.coalesce
    ∧ (tick .PYRAMID rotRequestState).rotationState ≠ RotState.starting
    ∧ (tick .PYRAMID (tick .PYRAMID rotRequestState)).shape
        = Tetromino.rotate (tetrominoShapes .PYRAMID) 1
    ∧ (tick .PYRAMID (tick .PYRAMID rotRequestState)).shape ≠ tetrominoShapes .PYRAMID := by
  refine ⟨by decide, by decide, by decide, by decide⟩

/-- Witness for the amended C5 at the concrete rotate-request state. -/
theorem rotation_protocol_witness :
    (tick .LEFT_CORNER rotRequestState).rotationState = RotState.coalesce :=
  (rotation_protocol.1 .LEFT_CORNER .LEFT_CORNER .LEFT_CORNER rotRequestState
    rfl rfl rfl (by decide) (by decide) (by decide)).1

/-- Concrete state for the C7 witness: one queued fill target, no
droplet in transit. -/
def fillDemoState : GameState :=
  { initialGameState with needFilling := [{ x := 3, y := 2 }] }

/-- Witness for C7 at the concrete fill state. -/
theorem fillTick_selection_witness :
    (fillDemoState.availableReservoirs = [] → fillTick fillDemoState = fillDemoState)
    ∧ (∀ r, closestReservoir { x := 3, y := 2 } fillDemoState.availableReservoirs = some r →
        (fillTick fillDemoState).currentlyMoving = some (getDispenseLocation r)
        ∧ ∃ l1 l2, fillDemoState.availableReservoirs = l1 ++ r :: l2
          ∧ (∀ r' ∈ l1, resDistSq { x := 3, y := 2 } r < resDistSq { x := 3, y := 2 } r')
          ∧ (∀ r' ∈ l2, resDistSq { x := 3, y := 2 } r ≤ resDistSq { x := 3, y := 2 } r')) :=
  fillTick_selection fillDemoState { x := 3, y := 2 } [] rfl rfl

/-! ## C8: the bounds invariant -/

/-- A (tetris-coordinate) cell inside the playable grid:
`0 ≤ targetX < gameSize.y` and `0 ≤ targetY < gameSize.x`. -/
def inGrid (ty tx : Int) : Prop :=
  0 ≤ tx ∧ tx < gameSize.y ∧ 0 ≤ ty ∧ ty < gameSize.x

/-- Every occupied cell of the piece lies in the playable grid. -/
def pieceInBounds (pos : Vec) (shape : Shape) : Prop :=
  ∀ (y x : Nat), cellAt shape y x = true → inGrid (pos.y + y) (pos.x + x)

/-- Every occupied cell of the static block grid lies in the playable
grid. -/
def blocksInBounds (blocks : Int → Int → Bool) : Prop :=
  ∀ (ty tx : Int), blocks ty tx = true → inGrid ty tx

theorem cellAt_true_lt (s : Shape) (y x : Nat) (h : cellAt s y x = true) :
    y < s.length ∧ x < (s.getD y []).length := by
  constructor
  · by_contra hy
    push_neg at hy
    rw [cellAt, List.getD_eq_default _ _ hy] at h
    simp [List.getD] at h
  · by_contra hx
    push_neg at hx
    rw [cellAt, List.getD_eq_default _ _ hx] at h
    exact Bool.false_ne_true h

theorem isValidMove_bounds (blocks : Int → Int → Bool) (pos : Vec) (shape : Shape)
    (h : isValidMove blocks pos shape = true) : pieceInBounds pos shape := by
  intro y x hc
  obtain ⟨hy, hx⟩ := cellAt_true_lt shape y x hc
  unfold isValidMove at h
  rw [List.all_eq_true] at h
  have h1 := h y (List.mem_range.2 hy)
  rw [List.all_eq_true] at h1
  have h2 := h1 x (List.mem_range.2 hx)
  simp only [hc, Bool.not_true, Bool.false_or, Bool.not_eq_true', Bool.or_eq_false_iff,
    decide_eq_false_iff_not, not_lt, not_le, gameSize, boardSize] at h2
  obtain ⟨⟨⟨⟨hx0, hx8⟩, hy0⟩, hy14⟩, -⟩ := h2
  simp only [inGrid, gameSize, boardSize]
  refine ⟨by omega, by omega, by omega, by omega⟩

theorem mergedBlocks_bounds (blocks : Int → Int → Bool) (pos : Vec) (shape : Shape)
    (hb : blocksInBounds blocks) (hp : pieceInBounds pos shape) :
    blocksInBounds (mergedBlocks blocks pos shape) := by
  intro ty tx h
  unfold mergedBlocks at h
  simp only [Bool.or_eq_true, List.any_eq_true, List.mem_range, Bool.and_eq_true,
    decide_eq_true_eq] at h
  rcases h with h | ⟨y, hy, x, hx, ⟨hc, hty⟩, htx⟩
  · exact hb ty tx h
  · rw [← hty, ← htx]
    exact hp y x hc

/-- The rotation orbit of a shape: the shape and its first four
clockwise rotations (the fourth is needed because the non-square
`SQUARE` bounding box only becomes periodic after one rotation). -/
def rotationsOf (s : Shape) : List Shape :=
  [s, Tetromino.rotate s 1, Tetromino.rotate (Tetromino.rotate s 1) 1,
   Tetromino.rotate (Tetromino.rotate (Tetromino.rotate s 1) 1) 1,
   Tetromino.rotate (Tetromino.rotate (Tetromino.rotate (Tetromino.rotate s 1) 1) 1) 1]

/-- Every shape the active piece can ever have: the seven catalog
shapes, closed under clockwise rotation. -/
def reachableShapes : List Shape :=
  (([.HORIZONTAL, .LEFT_CORNER, .RIGHT_CORNER, .SQUARE, .STEP_UP_LEFT, .STEP_UP_RIGHT,
     .PYRAMID] : List TetrominoType).map (fun t => rotationsOf (tetrominoShapes t))).flatten

theorem reachableShapes_closed :
    ∀ S ∈ reachableShapes, Tetromino.rotate S 1 ∈ reachableShapes := by decide

theorem tetrominoShapes_reachable (t : TetrominoType) :
    tetrominoShapes t ∈ reachableShapes := by
  cases t <;> decide

theorem spawn_isValid (t : TetrominoType) :
    isValidMove (fun _ _ => false) tetroSpawnPosition (tetrominoShapes t) = true := by
  cases t <;> decide

/-- The occupied cells of a shape, as (row, column) index pairs. -/
def occList (s : Shape) : List (Nat × Nat) :=
  ((List.range s.length).map (fun y =>
    (List.range (s.getD y []).length).filterMap
      (fun x => if cellAt s y x then some (y, x) else none))).flatten

theorem occList_cellAt (s : Shape) (c : Nat × Nat) (h : c ∈ occList s) :
    cellAt s c.1 c.2 = true := by
  unfold occList at h
  simp only [List.mem_flatten, List.mem_map] at h
  obtain ⟨l, ⟨y, hy, rfl⟩, hc⟩ := h
  simp only [List.mem_filterMap, List.mem_range] at hc
  obtain ⟨x, hx, hxc⟩ := hc
  by_cases hcell : cellAt s y x = true
  · rw [if_pos hcell] at hxc
    obtain rfl : (y, x) = c := by injection hxc
    exact hcell
  · rw [if_neg hcell] at hxc
    cases hxc

/-- `Tetromino.centerPos`. -/
def centerPos : Vec := { x := 1, y := 1 }

/-- Among the occupied cells of a shape and of its clockwise rotation
there is one in each of columns ≤ 1 and ≥ 1 and rows ≤ 1 and ≥ 1; this
pins the bounding-box center into the grid whenever both shapes fit. -/
def hasLowHighCells (s : Shape) : Bool :=
  ((occList s ++ occList (Tetromino.rotate s 1)).any (fun c => decide (c.2 ≤ 1)))
    && ((occList s ++ occList (Tetromino.rotate s 1)).any (fun c => decide (1 ≤ c.2)))
    && ((occList s ++ occList (Tetromino.rotate s 1)).any (fun c => decide (c.1 ≤ 1)))
    && ((occList s ++ occList (Tetromino.rotate s 1)).any (fun c => decide (1 ≤ c.1)))

theorem reachable_hasLowHigh : ∀ S ∈ reachableShapes, hasLowHighCells S = true := by decide

theorem center_in_grid (S : Shape) (pos : Vec)
    (hS : hasLowHighCells S = true)
    (h1 : pieceInBounds pos S) (h2 : pieceInBounds pos (Tetromino.rotate S 1)) :
    inGrid (pos.y + 1) (pos.x + 1) := by
  unfold hasLowHighCells at hS
  simp only [Bool.and_eq_true, List.any_eq_true, List.mem_append, decide_eq_true_eq] at hS
  obtain ⟨⟨⟨⟨c1, hm1, hb1⟩, c2, hm2, hb2⟩, c3, hm3, hb3⟩, c4, hm4, hb4⟩ := hS
  have fact : ∀ c : Nat × Nat, c ∈ occList S ∨ c ∈ occList (Tetromino.rotate S 1) →
      inGrid (pos.y + c.1) (pos.x + c.2) := by
    rintro c (hm | hm)
    · exact h1 c.1 c.2 (occList_cellAt S c hm)
    · exact h2 c.1 c.2 (occList_cellAt _ c hm)
  have g1 := fact c1 hm1
  have g2 := fact c2 hm2
  have g3 := fact c3 hm3
  have g4 := fact c4 hm4
  simp only [inGrid, gameSize, boardSize] at g1 g2 g3 g4 ⊢
  obtain ⟨a1, a2, a3, a4⟩ := g1
  obtain ⟨b1, b2, b3, b4⟩ := g2
  obtain ⟨d1, d2, d3, d4⟩ := g3
  obtain ⟨e1, e2, e3, e4⟩ := g4
  refine ⟨by omega, by omega, by omega, by omega⟩

/-- The inductive invariant: the active piece is in bounds, the static
grid is in bounds, the piece's shape is one of the reachable shapes,
and a pending rotation (`starting`/`coalesce`) carries an in-bounds
`newShape` equal to the clockwise rotation of the current shape. -/
def Inv (s : TetrisState) : Prop :=
  pieceInBounds s.pos s.shape
  ∧ blocksInBounds s.currentBlocks
  ∧ s.shape ∈ reachableShapes
  ∧ ((s.rotationState = RotState.starting ∨ s.rotationState = RotState.coalesce) →
      s.newShape = Tetromino.rotate s.shape 1 ∧ pieceInBounds s.pos s.newShape)

theorem Inv_testRotations (s : TetrisState) (h : Inv s) :
    Inv { testRotations 1 s with aboutRotate := false } := by
  obtain ⟨h1, h2, h3, h4⟩ := h
  simp only [testRotations]
  split_ifs with hv
  · exact ⟨h1, h2, h3, fun _ => ⟨rfl, isValidMove_bounds _ _ _ hv⟩⟩
  · exact ⟨h1, h2, h3, h4⟩

theorem Inv_moveStep (s : TetrisState) (h : Inv s)
    (hrs : s.rotationState = RotState.notRotating) : Inv (moveStep s) := by
  obtain ⟨h1, h2, h3, h4⟩ := h
  simp only [moveStep]
  split_ifs with hv
  · refine ⟨isValidMove_bounds _ _ _ hv, h2, h3, ?_⟩
    rintro (hc | hc) <;> rw [hrs] at hc <;> cases hc
  · refine ⟨h1, h2, h3, ?_⟩
    rintro (hc | hc) <;> rw [hrs] at hc <;> cases hc

theorem Inv_applyRotation (s : TetrisState) (h : Inv s) : Inv (applyRotation s) := by
  obtain ⟨h1, h2, h3, h4⟩ := h
  unfold applyRotation
  cases hrs : s.rotationState
  case notRotating => exact ⟨h1, h2, h3, h4⟩
  case starting =>
    refine ⟨h1, h2, h3, fun _ => ?_⟩
    exact h4 (Or.inl hrs)
  case coalesce =>
    obtain ⟨hns, hnb⟩ := h4 (Or.inr hrs)
    refine ⟨hnb, h2, ?_, ?_⟩
    · rw [hns]
      exact reachableShapes_closed _ h3
    · rintro (hc | hc) <;> cases hc
  case ending =>
    refine ⟨h1, h2, h3, ?_⟩
    rintro (hc | hc) <;> cases hc

theorem Inv_tickCore (s : TetrisState) (h : Inv s) : Inv (tickCore s) := by
  simp only [tickCore]
  split_ifs with hab hrs hrs2
  · exact Inv_moveStep _ (Inv_testRotations s h) hrs
  · exact Inv_applyRotation _ (Inv_testRotations s h)
  · exact Inv_moveStep _ h hrs2
  · exact Inv_applyRotation _ h

theorem Inv_landedPhase (t : TetrominoType) (s : TetrisState) (h : Inv s) :
    Inv (landedPhase t s) := by
  obtain ⟨h1, h2, h3, h4⟩ := h
  simp only [landedPhase, finalizeTetromino, resetRotationState]
  split_ifs with htop
  · refine ⟨h1, mergedBlocks_bounds _ _ _ h2 h1, h3, ?_⟩
    rintro (hc | hc) <;> cases hc
  · refine ⟨isValidMove_bounds _ _ _ (spawn_isValid t),
      mergedBlocks_bounds _ _ _ h2 h1, tetrominoShapes_reachable t, ?_⟩
    rintro (hc | hc) <;> cases hc

theorem Inv_tick (t : TetrominoType) (s : TetrisState) (h : Inv s) : Inv (tick t s) := by
  simp only [tick]
  split_ifs with hf hl
  · exact h
  · exact Inv_landedPhase t _ (Inv_tickCore s h)
  · exact Inv_tickCore s h

/-- One externally driven frame: the UI may call `setMovement` and
request a rotation, then a tick runs (with the random respawn kind
made explicit). -/
structure Input where
  dir : Option Dir
  rotReq : Bool
  spawn : TetrominoType

/-- Apply the UI inputs preceding a tick. -/
def applyInput (i : Input) (s : TetrisState) : TetrisState :=
  let s1 := match i.dir with
    | some d => setMovement d s
    | none => s
  if i.rotReq then { s1 with aboutRotate := true } else s1

/-- One full logic step: inputs, then the tick. -/
def step (i : Input) (s : TetrisState) : TetrisState := tick i.spawn (applyInput i s)

/-- Run a sequence of externally driven steps. -/
def run (inputs : List Input) (s : TetrisState) : TetrisState :=
  inputs.foldl (fun s i => step i s) s

theorem Inv_applyInput (i : Input) (s : TetrisState) (h : Inv s) : Inv (applyInput i s) := by
  obtain ⟨h1, h2, h3, h4⟩ := h
  obtain ⟨d, r, sp⟩ := i
  cases d <;> simp only [applyInput, setMovement] <;> split_ifs <;> exact ⟨h1, h2, h3, h4⟩

theorem Inv_run (inputs : List Input) : ∀ s, Inv s → Inv (run inputs s) := by
  induction inputs with
  | nil => exact fun s h => h
  | cons i is ih => exact fun s h => ih _ (Inv_tick i.spawn _ (Inv_applyInput i s h))

theorem Inv_init (t : TetrominoType) : Inv (initTetrisState t) := by
  refine ⟨isValidMove_bounds _ _ _ (spawn_isValid t), ?_, tetrominoShapes_reachable t, ?_⟩
  · intro ty tx hb
    cases hb
  · rintro (hc | hc) <;> cases hc

/-- C8: from the initialized game, under every sequence of UI inputs,
random respawn choices and ticks, every occupied cell of the active
piece and of the static block grid lies in the playable grid, and
whenever the render would draw the coalesced piece, its bounding-box
center cell is also inside the grid.  (All rendering writes are cells
of the piece, cells of the static grid, or — during `coalesce` — this
center cell, and merging writes exactly the piece's cells.) -/
theorem bounds_invariant (t0 : TetrominoType) (inputs : List Input) :
    pieceInBounds (run inputs (initTetrisState t0)).pos (run inputs (initTetrisState t0)).shape
    ∧ blocksInBounds (run inputs (initTetrisState t0)).currentBlocks
    ∧ ((run inputs (initTetrisState t0)).rotationState = RotState.coalesce →
        inGrid (vecAdd (run inputs (initTetrisState t0)).pos centerPos).y
          (vecAdd (run inputs (initTetrisState t0)).pos centerPos).x) := by
  obtain ⟨h1, h2, h3, h4⟩ := Inv_run inputs (initTetrisState t0) (Inv_init t0)
  refine ⟨h1, h2, fun hc => ?_⟩
  obtain ⟨hns, hnb⟩ := h4 (Or.inr hc)
  exact center_in_grid _ _ (reachable_hasLowHigh _ h3) h1 (hns ▸ hnb)

end OpenDrop
